import Mathlib

/-!
# Verification of the linkedin-ghostwriter approval/scheduling core

Shallow embedding of the event-ingestion/idempotency layer and the
draft-approval-to-scheduling state machine of the repository
`shubh-37/linkedin-ghostwriter`, together with proofs and refutations of
the specification's claims about that core.

Embedding conventions:
* `internal/models/post.go` — `Post` keeps the fields this core reads or
  writes (`ID`, `Content`, `Status`, `ScheduledAt`, `PublishedAt`); the
  remaining fields (source-thought ids, metrics, performance score,
  `CreatedAt` — which is not in the `UPDATE` column list) are opaque to
  every modelled operation and are omitted.
* Go `time.Time` values produced by `calculateScheduledTime` are modelled
  by `LocalTime`: a calendar-day ordinal (`time.AddDate(0,0,1)` is `day + 1`),
  wall-clock hour/minute, and the resolved location name.
* The Postgres store (`internal/database/post_repo.go`) is modelled by
  `Store`: a list of rows (`posts`, in store order — the spec treats the
  `ORDER BY` as a store implementation detail) plus a fault model
  (`getFails`, `updateFails`, `listFails`) injecting the per-call errors the
  Go code can receive from the database driver.  A SQL `UPDATE ... WHERE id`
  rewrites every row whose id matches; `RowsAffected() == 0` is an error.
* Outbound `client.SendMessage` is modelled as always succeeding and its
  channel/text recorded in the result, matching the spec's treatment of the
  chat transport as an external collaborator.
-/

/-- An absolute wall-clock timestamp in a resolved location, as produced by
`calculateScheduledTime` in `internal/agents/scheduler.go`. -/
structure LocalTime where
  day : Nat
  hour : Nat
  minute : Nat
  loc : String
  deriving DecidableEq

/-- One post row, from `internal/models/post.go` / the `posts` table. -/
structure Post where
  id : String
  content : String
  status : String
  scheduledAt : Option LocalTime
  publishedAt : Option LocalTime
  deriving DecidableEq

/-- The external post store (`internal/database/post_repo.go`) with an
explicit fault model for the errors the driver can return. -/
structure Store where
  posts : List Post
  getFails : String → Bool
  updateFails : String → Bool
  listFails : Bool

/-- `PostRepository.GetByID`: select the row with the given id; an injected
driver failure or a missing row yields an error (`none`). -/
def GetByID (db : Store) (id : String) : Option Post :=
  if db.getFails id then none
  else db.posts.find? (fun p => p.id == id)

/-- `PostRepository.Update`: write every modelled column of the struct to
each row whose id matches; zero rows affected is an error. -/
def Update (db : Store) (post : Post) : Option Store :=
  if db.updateFails post.id then none
  else if db.posts.any (fun p => p.id == post.id) then
    some { db with posts := db.posts.map (fun p => if p.id == post.id then post else p) }
  else none

/-- `PostRepository.UpdateStatus`: `UPDATE posts SET status = $2 WHERE id = $1`;
only the status column of matching rows changes. -/
def UpdateStatus (db : Store) (id status : String) : Option Store :=
  if db.updateFails id then none
  else if db.posts.any (fun p => p.id == id) then
    some { db with posts :=
            db.posts.map (fun p => if p.id == id then { p with status := status } else p) }
  else none

/-- `PostRepository.GetByStatus`: the rows with the given status, in store
order. -/
def GetByStatus (db : Store) (status : String) : Option (List Post) :=
  if db.listFails then none
  else some (db.posts.filter (fun p => p.status == status))

/-!
## Approval handler (`internal/slack/approval.go`)
-/

/-- The draft correlation cache: `draftCache map[string][]string`
(message timestamp → post ids) inside `ApprovalHandler`. -/
def DraftCache : Type := String → Option (List String)

/-- The empty cache built by `NewApprovalHandler`. -/
def emptyDraftCache : DraftCache := fun _ => none

/-- `ApprovalHandler.StoreDraftMessage`: `h.draftCache[messageTS] = postIDs`. -/
def StoreDraftMessage (cache : DraftCache) (messageTS : String) (postIDs : List String) :
    DraftCache :=
  fun ts => if ts = messageTS then some postIDs else cache ts

/-- The fields of `slackevents.ReactionAddedEvent` the handler reads. -/
structure ReactionEvent where
  reaction : String
  itemTimestamp : String
  itemChannel : String
  deriving DecidableEq

/-- Observable outcome of one `HandleReaction` call: returned `nil` without
sending anything, sent a message over the (always-successful) chat transport
and returned `nil`, or returned a store error. -/
inductive ReactionResult where
  | ignored : ReactionResult
  | sent (channel message : String) : ReactionResult
  | failed (err : String) : ReactionResult
  deriving DecidableEq

/-- Confirmation text built by `approveDrafts`. -/
def approvedAllMsg (n : Nat) : String :=
  "✅ Approved " ++ toString n ++
    " draft(s)! They're ready for scheduling.\n\nUse `@LinkedIn Ghostwriter schedule` to schedule them for posting."

/-- Confirmation text built by `approveSpecificDraft`. -/
def approvedVariationMsg (n : Nat) : String :=
  "✅ Approved Variation " ++ toString n ++
    "! Ready for scheduling.\n\nUse `@LinkedIn Ghostwriter schedule` to schedule it."

/-- Confirmation text built by `rejectDrafts`. -/
def rejectedMsg (n : Nat) : String :=
  "❌ Rejected " ++ toString n ++
    " draft(s). Generate new ones with `@LinkedIn Ghostwriter generate`"

/-- Confirmation text built by `scheduleDrafts`. -/
def markedForSchedulingMsg (n : Nat) : String :=
  "📅 Marked " ++ toString n ++
    " draft(s) for scheduling. Use `@LinkedIn Ghostwriter schedule` to set posting times."

/-- The loop of `approveDrafts` (approval.go lines 97–113): for each post id,
fetch the row, set its status to "approved", write it back; a failed fetch or
write is logged and skipped; `approvedCount` counts the successes. -/
def approveDraftsLoop : Store → List String → Nat → Store × Nat
  | db, [], n => (db, n)
  | db, postID :: rest, n =>
    match GetByID db postID with
    | none => approveDraftsLoop db rest n
    | some post =>
      match Update db { post with status := "approved" } with
      | none => approveDraftsLoop db rest n
      | some db' => approveDraftsLoop db' rest (n + 1)

/-- `ApprovalHandler.approveDrafts`. -/
def approveDrafts (db : Store) (ev : ReactionEvent) (postIDs : List String) :
    Store × ReactionResult :=
  let r := approveDraftsLoop db postIDs 0
  (r.1, ReactionResult.sent ev.itemChannel (approvedAllMsg r.2))

/-- The loop of `rejectDrafts` (approval.go lines 124–131): `UpdateStatus` to
"rejected" for each id, skipping failures, counting successes. -/
def rejectDraftsLoop : Store → List String → Nat → Store × Nat
  | db, [], n => (db, n)
  | db, postID :: rest, n =>
    match UpdateStatus db postID "rejected" with
    | none => rejectDraftsLoop db rest n
    | some db' => rejectDraftsLoop db' rest (n + 1)

/-- `ApprovalHandler.rejectDrafts`. -/
def rejectDrafts (db : Store) (ev : ReactionEvent) (postIDs : List String) :
    Store × ReactionResult :=
  let r := rejectDraftsLoop db postIDs 0
  (r.1, ReactionResult.sent ev.itemChannel (rejectedMsg r.2))

/-- The loop of `scheduleDrafts` (approval.go lines 141–156): identical to the
`approveDrafts` loop — the calendar reaction also writes status "approved". -/
def scheduleDraftsLoop : Store → List String → Nat → Store × Nat
  | db, [], n => (db, n)
  | db, postID :: rest, n =>
    match GetByID db postID with
    | none => scheduleDraftsLoop db rest n
    | some post =>
      match Update db { post with status := "approved" } with
      | none => scheduleDraftsLoop db rest n
      | some db' => scheduleDraftsLoop db' rest (n + 1)

/-- `ApprovalHandler.scheduleDrafts`. -/
def scheduleDrafts (db : Store) (ev : ReactionEvent) (postIDs : List String) :
    Store × ReactionResult :=
  let r := scheduleDraftsLoop db postIDs 0
  (r.1, ReactionResult.sent ev.itemChannel (markedForSchedulingMsg r.2))

/-- The "reject other variations" loop of `approveSpecificDraft`
(approval.go lines 83–87): walks the whole batch with its position, skips the
approved index, and ignores `UpdateStatus` errors entirely. -/
def rejectOthers : Store → List String → Nat → Nat → Store
  | db, [], _, _ => db
  | db, otherID :: rest, i, index =>
    if i = index then rejectOthers db rest (i + 1) index
    else
      match UpdateStatus db otherID "rejected" with
      | none => rejectOthers db rest (i + 1) index
      | some db' => rejectOthers db' rest (i + 1) index

/-- `ApprovalHandler.approveSpecificDraft`: guard the index, fetch and approve
the selected post (returning the error on failure), then reject every other
variation ignoring failures. -/
def approveSpecificDraft (db : Store) (ev : ReactionEvent) (postIDs : List String)
    (index : Nat) : Store × ReactionResult :=
  if h : postIDs.length ≤ index then
    (db, ReactionResult.sent ev.itemChannel ("❌ Invalid variation number"))
  else
    let postID := postIDs.get ⟨index, by omega⟩
    match GetByID db postID with
    | none => (db, ReactionResult.failed ("failed to get post " ++ postID))
    | some post =>
      match Update db { post with status := "approved" } with
      | none => (db, ReactionResult.failed ("failed to update post " ++ postID))
      | some db' =>
        (rejectOthers db' postIDs 0 index,
         ReactionResult.sent ev.itemChannel (approvedVariationMsg (index + 1)))

/-- `ApprovalHandler.HandleReaction`: resolve the message timestamp through the
draft cache (unknown message → ignored, `nil` returned), then dispatch on the
reaction symbol exactly as the Go `switch` does. -/
def HandleReaction (cache : DraftCache) (db : Store) (ev : ReactionEvent) :
    Store × ReactionResult :=
  match cache ev.itemTimestamp with
  | none => (db, ReactionResult.ignored)
  | some postIDs =>
    if ev.reaction = "white_check_mark" ∨ ev.reaction = "heavy_check_mark" ∨
        ev.reaction = "✅" then
      approveDrafts db ev postIDs
    else if ev.reaction = "x" ∨ ev.reaction = "❌" then
      rejectDrafts db ev postIDs
    else if ev.reaction = "one" ∨ ev.reaction = "1️⃣" then
      approveSpecificDraft db ev postIDs 0
    else if ev.reaction = "two" ∨ ev.reaction = "2️⃣" then
      approveSpecificDraft db ev postIDs 1
    else if ev.reaction = "three" ∨ ev.reaction = "3️⃣" then
      approveSpecificDraft db ev postIDs 2
    else if ev.reaction = "calendar" ∨ ev.reaction = "📅" then
      scheduleDrafts db ev postIDs
    else (db, ReactionResult.ignored)

/-!
## Idempotency layer (`internal/slack/server.go`)
-/

/-- The `processedEvents map[string]bool` of `Server`, with the Go map's
read-missing-key-gives-zero-value semantics. -/
def SeenSet : Type := String → Bool

/-- The empty set built by `NewServer`. -/
def emptySeen : SeenSet := fun _ => false

/-- `s.processedEvents[eventID]`. -/
def HasSeen (seen : SeenSet) (eventID : String) : Bool := seen eventID

/-- `s.processedEvents[eventID] = true`. -/
def MarkSeen (seen : SeenSet) (eventID : String) : SeenSet :=
  fun x => if x = eventID then true else seen x

/-- Event-identity resolution in `handleEvents` (server.go lines 89–99):
prefer a non-empty `event_id` from the envelope (`none` models a JSON
unmarshalling failure), else fall back to `teamID ++ ":" ++ eventType`. -/
def resolveEventID (envelopeEventID : Option String) (teamID eventType : String) :
    String :=
  match envelopeEventID with
  | none => teamID ++ ":" ++ eventType
  | some e => if e = "" then teamID ++ ":" ++ eventType else e

/-- The deduplication gate of `handleEvents` (server.go lines 101–108): given
the current seen-set and the resolved event id, return the new seen-set and
whether the inner event is dispatched to a handler. -/
def dedupGate (seen : SeenSet) (eventID : String) : SeenSet × Bool :=
  if eventID ≠ "" then
    if HasSeen seen eventID then (seen, false)
    else (MarkSeen seen eventID, true)
  else (seen, true)

/-!
## Scheduler agent (`internal/agents/scheduler.go`)
-/

/-- The scheduling preferences (`ScheduleConfig`), with the start date as a
calendar-day ordinal. -/
structure ScheduleConfig where
  postsPerDay : Nat
  preferredTimes : List String
  startDate : Nat
  timezone : String

/-- The numeric value of a decimal digit character, if it is one. -/
def digitVal (c : Char) : Option Nat :=
  if c.isDigit then some (c.toNat - 48) else none

/-- Go's `time.Parse("15:04", s)`: a two-digit 24-hour clock reading
`HH:MM`, rejecting anything else. -/
def parseClock (s : String) : Option (Nat × Nat) :=
  match s.toList with
  | [h1, h2, c, m1, m2] =>
    if c = ':' then
      match digitVal h1, digitVal h2, digitVal m1, digitVal m2 with
      | some a, some b, some x, some y =>
        let hour := 10 * a + b
        let minute := 10 * x + y
        if hour < 24 ∧ minute < 60 then some (hour, minute) else none
      | _, _, _, _ => none
    else none
  | _ => none

/-- `SchedulerAgent.getDefaultTimes`: the fixed slot tables per posts-per-day
value, with the 3-slot table as the default. -/
def getDefaultTimes (postsPerDay : Nat) : List String :=
  match postsPerDay with
  | 1 => ["09:00"]
  | 2 => ["09:00", "15:00"]
  | 3 => ["09:00", "13:00", "17:00"]
  | 4 => ["09:00", "12:00", "15:00", "18:00"]
  | _ => ["09:00", "13:00", "17:00"]

/-- `time.LoadLocation` with the fallback of scheduler.go lines 51–55: an
unknown zone name (per the ambient tz database `tzdb`) falls back to UTC. -/
def loadLocation (tzdb : String → Bool) (tz : String) : String :=
  if tzdb tz then tz else "UTC"

/-- `SchedulerAgent.calculateScheduledTime`: parse the `HH:MM` slot string and
combine it with the date in the given location. -/
def calculateScheduledTime (date : Nat) (timeStr : String) (loc : String) :
    Option LocalTime :=
  (parseClock timeStr).map (fun hm => { day := date, hour := hm.1, minute := hm.2, loc := loc })

/-- The scheduling loop of `ScheduleApprovedPosts` (scheduler.go lines 63–93):
walk the fetched approved posts, assign `(currentDate, slot)` round-robin,
write each post back with status "scheduled"; a failed time computation or a
failed write is skipped without advancing the slot.  The slot access
`PreferredTimes[timeSlotIndex]` is in bounds whenever the slot table is
non-empty (Go would panic otherwise); the `none` branch of `times.get? idx`
models that unreachable case by stopping. -/
def schedLoop (times : List String) (loc : String) :
    List Post → Store → Nat → Nat → Nat → Store × Nat
  | [], db, _, _, n => (db, n)
  | post :: rest, db, date, idx, n =>
    match times.get? idx with
    | none => (db, n)
    | some timeStr =>
      match calculateScheduledTime date timeStr loc with
      | none => schedLoop times loc rest db date idx n
      | some t =>
        match Update db { post with scheduledAt := some t, status := "scheduled" } with
        | none => schedLoop times loc rest db date idx n
        | some db' =>
          if idx + 1 ≥ times.length then
            schedLoop times loc rest db' (date + 1) 0 (n + 1)
          else
            schedLoop times loc rest db' date (idx + 1) (n + 1)

/-- `SchedulerAgent.ScheduleApprovedPosts`, parameterised by the ambient tz
database: fetch the approved posts (an empty batch returns count 0), resolve
the timezone, derive default slots when none are configured, and run the
round-robin loop. -/
def ScheduleApprovedPosts (tzdb : String → Bool) (db : Store) (config : ScheduleConfig) :
    Store × Except String Nat :=
  match GetByStatus db "approved" with
  | none => (db, Except.error "failed to get approved posts")
  | some approvedPosts =>
    if approvedPosts.length = 0 then (db, Except.ok 0)
    else
      let location := loadLocation tzdb config.timezone
      let times :=
        if config.preferredTimes.length = 0 then getDefaultTimes config.postsPerDay
        else config.preferredTimes
      let r := schedLoop times location approvedPosts db config.startDate 0 0
      (r.1, Except.ok r.2)

/-- `SchedulerAgent.CancelSchedule`: fetch the post, set status "approved" and
clear `scheduledAt` (note: `publishedAt` is left as fetched), write it back. -/
def CancelSchedule (db : Store) (postID : String) : Store × Except String Unit :=
  match GetByID db postID with
  | none => (db, Except.error ("failed to get post " ++ postID))
  | some post =>
    match Update db { post with status := "approved", scheduledAt := none } with
    | none => (db, Except.error "failed to cancel schedule")
    | some db' => (db', Except.ok ())

/-!
## Helper lemmas about the store operations
-/

theorem Update_eq_some {db : Store} {q : Post} {db' : Store} :
    Update db q = some db' ↔
      db.updateFails q.id = false ∧ db.posts.any (fun p => p.id == q.id) = true ∧
        db' = { db with posts :=
                  db.posts.map (fun p => if p.id == q.id then q else p) } := by
  unfold Update
  constructor
  · intro h
    split at h
    · exact absurd h (by simp)
    · split at h
      · refine ⟨by simp_all, by assumption, by simpa using h.symm⟩
      · exact absurd h (by simp)
  · rintro ⟨h1, h2, h3⟩
    simp [h1, h2, h3]

theorem UpdateStatus_eq_some {db : Store} {id status : String} {db' : Store} :
    UpdateStatus db id status = some db' ↔
      db.updateFails id = false ∧ db.posts.any (fun p => p.id == id) = true ∧
        db' = { db with posts := db.posts.map (fun p => if p.id == id then { p with status := status } else p) } := by
  unfold UpdateStatus
  constructor
  · intro h
    split at h
    · exact absurd h (by simp)
    · split at h
      · refine ⟨by simp_all, by assumption, by simpa using h.symm⟩
      · exact absurd h (by simp)
  · rintro ⟨h1, h2, h3⟩
    simp [h1, h2, h3]

theorem GetByID_eq_some {db : Store} {i : String} {post : Post} :
    GetByID db i = some post ↔
      db.getFails i = false ∧ db.posts.find? (fun p => p.id == i) = some post := by
  unfold GetByID
  constructor
  · intro h
    split at h
    · exact absurd h (by simp)
    · exact ⟨by simp_all, h⟩
  · rintro ⟨h1, h2⟩
    simp [h1, h2]

/-- A successful `GetByID` returns a row of the store whose id is the one
requested. -/
theorem GetByID_mem {db : Store} {i : String} {post : Post}
    (h : GetByID db i = some post) : post ∈ db.posts ∧ post.id = i := by
  rcases GetByID_eq_some.mp h with ⟨-, hf⟩
  exact ⟨List.mem_of_find?_eq_some hf, by simpa using List.find?_some hf⟩

/-- Rows after a successful `Update`: the written value, or an untouched row
with a different id. -/
theorem mem_of_mem_update {db : Store} {q : Post} {db' : Store}
    (h : Update db q = some db') {p : Post} (hp : p ∈ db'.posts) :
    p = q ∨ (p ∈ db.posts ∧ p.id ≠ q.id) := by
  rcases Update_eq_some.mp h with ⟨-, -, rfl⟩
  simp only [List.mem_map] at hp
  rcases hp with ⟨p0, hp0, hcase⟩
  by_cases hid : p0.id = q.id
  · left
    simpa [hid] using hcase.symm
  · right
    have hpp : p = p0 := by
      have hne : (if (p0.id == q.id) = true then q else p0) = p0 := by simp [hid]
      rw [hne] at hcase
      exact hcase.symm
    subst hpp
    exact ⟨hp0, by simpa using hid⟩

theorem update_map_id {db : Store} {q : Post} {db' : Store}
    (h : Update db q = some db') :
    db'.posts.map (fun p => p.id) = db.posts.map (fun p => p.id) := by
  rcases Update_eq_some.mp h with ⟨-, -, rfl⟩
  simp only [List.map_map]
  apply List.map_congr_left
  intro p _
  by_cases hid : p.id = q.id
  · simp [hid]
  · simp [hid]

theorem mem_of_mem_updateStatus {db : Store} {id status : String} {db' : Store}
    (h : UpdateStatus db id status = some db') {p : Post} (hp : p ∈ db'.posts) :
    (∃ p0 ∈ db.posts, p0.id = id ∧ p = { p0 with status := status }) ∨
      (p ∈ db.posts ∧ p.id ≠ id) := by
  rcases UpdateStatus_eq_some.mp h with ⟨-, -, rfl⟩
  simp only [List.mem_map] at hp
  rcases hp with ⟨p0, hp0, hcase⟩
  by_cases hid : p0.id = id
  · left
    exact ⟨p0, hp0, hid, by simpa [hid] using hcase.symm⟩
  · right
    have hpp : p = p0 := by
      have hne : (if (p0.id == id) = true then { p0 with status := status } else p0) = p0 := by
        simp [hid]
      rw [hne] at hcase
      exact hcase.symm
    subst hpp
    exact ⟨hp0, hid⟩

theorem updateStatus_map_id {db : Store} {id status : String} {db' : Store}
    (h : UpdateStatus db id status = some db') :
    db'.posts.map (fun p => p.id) = db.posts.map (fun p => p.id) := by
  rcases UpdateStatus_eq_some.mp h with ⟨-, -, rfl⟩
  simp only [List.map_map]
  apply List.map_congr_left
  intro p _
  by_cases hid : p.id = id
  · simp [hid]
  · simp [hid]

theorem any_id_congr {l l' : List Post}
    (h : l.map (fun p => p.id) = l'.map (fun p => p.id)) (i : String) :
    l.any (fun p => p.id == i) = l'.any (fun p => p.id == i) := by
  induction l generalizing l' with
  | nil =>
    cases l' with
    | nil => rfl
    | cons b t => simp at h
  | cons a t ih =>
    cases l' with
    | nil => simp at h
    | cons b t' =>
      simp only [List.map_cons, List.cons.injEq] at h
      simp [List.any_cons, h.1, ih h.2]

theorem update_fields {db : Store} {q : Post} {db' : Store}
    (h : Update db q = some db') :
    db'.getFails = db.getFails ∧ db'.updateFails = db.updateFails ∧
      db'.listFails = db.listFails := by
  rcases Update_eq_some.mp h with ⟨-, -, rfl⟩
  exact ⟨rfl, rfl, rfl⟩

theorem updateStatus_fields {db : Store} {id status : String} {db' : Store}
    (h : UpdateStatus db id status = some db') :
    db'.getFails = db.getFails ∧ db'.updateFails = db.updateFails ∧
      db'.listFails = db.listFails := by
  rcases UpdateStatus_eq_some.mp h with ⟨-, -, rfl⟩
  exact ⟨rfl, rfl, rfl⟩

/-- An id for which `GetByID` followed by `Update` is guaranteed to succeed:
no injected read fault, a row present, no injected write fault. -/
def okGetUpd (db : Store) (i : String) : Bool :=
  !db.getFails i && db.posts.any (fun p => p.id == i) && !db.updateFails i

/-- An id for which `UpdateStatus` is guaranteed to succeed. -/
def okUpdStatus (db : Store) (i : String) : Bool :=
  !db.updateFails i && db.posts.any (fun p => p.id == i)

theorem okGetUpd_iff {db : Store} {i : String} :
    okGetUpd db i = true ↔
      db.getFails i = false ∧ db.posts.any (fun p => p.id == i) = true ∧
        db.updateFails i = false := by
  simp [okGetUpd, and_assoc]

theorem okUpdStatus_iff {db : Store} {i : String} :
    okUpdStatus db i = true ↔
      db.updateFails i = false ∧ db.posts.any (fun p => p.id == i) = true := by
  simp [okUpdStatus]

theorem okGetUpd_congr {db db' : Store} (hg : db'.getFails = db.getFails)
    (hu : db'.updateFails = db.updateFails)
    (hm : db'.posts.map (fun p => p.id) = db.posts.map (fun p => p.id)) (i : String) :
    okGetUpd db' i = okGetUpd db i := by
  simp [okGetUpd, hg, hu, any_id_congr hm i]

theorem okUpdStatus_congr {db db' : Store} (hu : db'.updateFails = db.updateFails)
    (hm : db'.posts.map (fun p => p.id) = db.posts.map (fun p => p.id)) (i : String) :
    okUpdStatus db' i = okUpdStatus db i := by
  simp [okUpdStatus, hu, any_id_congr hm i]

theorem okGetUpd_update {db : Store} {q : Post} {db' : Store}
    (h : Update db q = some db') (i : String) : okGetUpd db' i = okGetUpd db i :=
  okGetUpd_congr (update_fields h).1 (update_fields h).2.1 (update_map_id h) i

theorem okGetUpd_updateStatus {db : Store} {id status : String} {db' : Store}
    (h : UpdateStatus db id status = some db') (i : String) :
    okGetUpd db' i = okGetUpd db i :=
  okGetUpd_congr (updateStatus_fields h).1 (updateStatus_fields h).2.1
    (updateStatus_map_id h) i

theorem okUpdStatus_update {db : Store} {q : Post} {db' : Store}
    (h : Update db q = some db') (i : String) : okUpdStatus db' i = okUpdStatus db i :=
  okUpdStatus_congr (update_fields h).2.1 (update_map_id h) i

theorem okUpdStatus_updateStatus {db : Store} {id status : String} {db' : Store}
    (h : UpdateStatus db id status = some db') (i : String) :
    okUpdStatus db' i = okUpdStatus db i :=
  okUpdStatus_congr (updateStatus_fields h).2.1 (updateStatus_map_id h) i

/-- When `okGetUpd` holds, `GetByID` succeeds. -/
theorem getByID_of_ok {db : Store} {i : String} (h : okGetUpd db i = true) :
    ∃ post, GetByID db i = some post := by
  rcases okGetUpd_iff.mp h with ⟨h1, h2, -⟩
  have hs : (db.posts.find? (fun p => p.id == i)).isSome := by
    rw [List.find?_isSome]
    simpa using List.any_eq_true.mp h2
  rcases Option.isSome_iff_exists.mp hs with ⟨post, hpost⟩
  exact ⟨post, by simp [GetByID, h1, hpost]⟩

/-- When `okGetUpd` holds, writing any value whose id is the fetched one
succeeds. -/
theorem update_of_ok {db : Store} {i : String} {q : Post} (h : okGetUpd db i = true)
    (hq : q.id = i) : ∃ db', Update db q = some db' := by
  rcases okGetUpd_iff.mp h with ⟨-, h2, h3⟩
  refine ⟨_, Update_eq_some.mpr ⟨by rw [hq]; exact h3, by rw [hq]; exact h2, rfl⟩⟩

/-- When `okUpdStatus` holds, `UpdateStatus` succeeds. -/
theorem updateStatus_of_ok {db : Store} {i s : String} (h : okUpdStatus db i = true) :
    ∃ db', UpdateStatus db i s = some db' := by
  rcases okUpdStatus_iff.mp h with ⟨h1, h2⟩
  exact ⟨_, UpdateStatus_eq_some.mpr ⟨h1, h2, rfl⟩⟩

/-!
## Behaviour of the approval loops
-/

/-- Every write of the `approveDrafts` loop writes status "approved", so
"all rows with id `j` are approved" is preserved by the whole loop. -/
theorem approveDraftsLoop_preserves (j : String) :
    ∀ (ids : List String) (db : Store) (n : Nat),
      (∀ p ∈ db.posts, p.id = j → p.status = "approved") →
      ∀ p ∈ (approveDraftsLoop db ids n).1.posts, p.id = j → p.status = "approved" := by
  intro ids
  induction ids with
  | nil => intro db n h p hp; exact h p hp
  | cons postID rest ih =>
    intro db n h
    cases hget : GetByID db postID with
    | none =>
      simp only [approveDraftsLoop, hget]
      exact ih db n h
    | some post =>
      cases hupd : Update db { post with status := "approved" } with
      | none =>
        simp only [approveDraftsLoop, hget, hupd]
        exact ih db n h
      | some db' =>
        simp only [approveDraftsLoop, hget, hupd]
        apply ih db' (n + 1)
        intro p hp hpj
        rcases mem_of_mem_update hupd hp with rfl | ⟨hmem, -⟩
        · rfl
        · exact h p hmem hpj

/-- If `j` is in the batch and its read and write are fault-free, every row
with id `j` ends the `approveDrafts` loop with status "approved" — whatever
happens to the other batch members. -/
theorem approveDraftsLoop_sets (j : String) :
    ∀ (ids : List String) (db : Store) (n : Nat),
      j ∈ ids → okGetUpd db j = true →
      ∀ p ∈ (approveDraftsLoop db ids n).1.posts, p.id = j → p.status = "approved" := by
  intro ids
  induction ids with
  | nil => intro db n hmem; exact absurd hmem (List.not_mem_nil j)
  | cons postID rest ih =>
    intro db n hmem hok
    by_cases hj : postID = j
    · subst hj
      obtain ⟨post, hget⟩ := getByID_of_ok hok
      have hpid : post.id = postID := (GetByID_mem hget).2
      obtain ⟨db', hupd⟩ :=
        update_of_ok (q := { post with status := "approved" }) hok (by simpa using hpid)
      simp only [approveDraftsLoop, hget, hupd]
      apply approveDraftsLoop_preserves postID rest db' (n + 1)
      intro p hp hpj
      rcases mem_of_mem_update hupd hp with rfl | ⟨-, hne⟩
      · rfl
      · exact absurd (by simpa [hpid] using hpj) hne
    · have hmem' : j ∈ rest := by
        rcases List.mem_cons.mp hmem with h1 | h1
        · exact absurd h1.symm hj
        · exact h1
      cases hget : GetByID db postID with
      | none =>
        simp only [approveDraftsLoop, hget]
        exact ih db n hmem' hok
      | some post =>
        cases hupd : Update db { post with status := "approved" } with
        | none =>
          simp only [approveDraftsLoop, hget, hupd]
          exact ih db n hmem' hok
        | some db' =>
          simp only [approveDraftsLoop, hget, hupd]
          exact ih db' (n + 1) hmem' (by rw [okGetUpd_update hupd]; exact hok)

/-- The count returned by the `approveDrafts` loop is exactly the number of
batch entries whose read and write succeed. -/
theorem approveDraftsLoop_count :
    ∀ (ids : List String) (db : Store) (n : Nat),
      (approveDraftsLoop db ids n).2 = n + (ids.filter (fun i => okGetUpd db i)).length := by
  intro ids
  induction ids with
  | nil => intro db n; simp [approveDraftsLoop]
  | cons postID rest ih =>
    intro db n
    by_cases hok : okGetUpd db postID = true
    · obtain ⟨post, hget⟩ := getByID_of_ok hok
      have hpid : post.id = postID := (GetByID_mem hget).2
      obtain ⟨db', hupd⟩ :=
        update_of_ok (q := { post with status := "approved" }) hok (by simpa using hpid)
      simp only [approveDraftsLoop, hget, hupd]
      rw [ih db' (n + 1)]
      have hfc : rest.filter (fun i => okGetUpd db' i) = rest.filter (fun i => okGetUpd db i) :=
        List.filter_congr (fun i _ => by rw [okGetUpd_update hupd])
      rw [hfc]
      simp only [List.filter_cons, hok, if_pos, List.length_cons]
      omega
    · rw [Bool.not_eq_true] at hok
      cases hget : GetByID db postID with
      | none =>
        simp only [approveDraftsLoop, hget]
        rw [ih db n]
        simp [List.filter_cons, hok]
      | some post =>
        have hpid : post.id = postID := (GetByID_mem hget).2
        have hmem : post ∈ db.posts := (GetByID_mem hget).1
        have hgf : db.getFails postID = false := (GetByID_eq_some.mp hget).1
        have hany : db.posts.any (fun p => p.id == postID) = true := by
          rw [List.any_eq_true]
          exact ⟨post, hmem, by simp [hpid]⟩
        have huf : db.updateFails postID = true := by
          by_contra hc
          rw [Bool.not_eq_true] at hc
          have : okGetUpd db postID = true := okGetUpd_iff.mpr ⟨hgf, hany, hc⟩
          rw [this] at hok
          exact Bool.true_eq_false.mp hok
        have hupd : Update db { post with status := "approved" } = none := by
          unfold Update
          simp [hpid, huf]
        simp only [approveDraftsLoop, hget, hupd]
        rw [ih db n]
        simp [List.filter_cons, hok]

/-- Every write of the `rejectDrafts` loop writes status "rejected", so
"all rows with id `j` are rejected" is preserved by the whole loop. -/
theorem rejectDraftsLoop_preserves (j : String) :
    ∀ (ids : List String) (db : Store) (n : Nat),
      (∀ p ∈ db.posts, p.id = j → p.status = "rejected") →
      ∀ p ∈ (rejectDraftsLoop db ids n).1.posts, p.id = j → p.status = "rejected" := by
  intro ids
  induction ids with
  | nil => intro db n h p hp; exact h p hp
  | cons postID rest ih =>
    intro db n h
    cases hupd : UpdateStatus db postID "rejected" with
    | none =>
      simp only [rejectDraftsLoop, hupd]
      exact ih db n h
    | some db' =>
      simp only [rejectDraftsLoop, hupd]
      apply ih db' (n + 1)
      intro p hp hpj
      rcases mem_of_mem_updateStatus hupd hp with ⟨p0, -, -, rfl⟩ | ⟨hmem, -⟩
      · rfl
      · exact h p hmem hpj

/-- If `j` is in the batch and its status write is fault-free, every row with
id `j` ends the `rejectDrafts` loop with status "rejected". -/
theorem rejectDraftsLoop_sets (j : String) :
    ∀ (ids : List String) (db : Store) (n : Nat),
      j ∈ ids → okUpdStatus db j = true →
      ∀ p ∈ (rejectDraftsLoop db ids n).1.posts, p.id = j → p.status = "rejected" := by
  intro ids
  induction ids with
  | nil => intro db n hmem; exact absurd hmem (List.not_mem_nil j)
  | cons postID rest ih =>
    intro db n hmem hok
    by_cases hj : postID = j
    · subst hj
      obtain ⟨db', hupd⟩ := updateStatus_of_ok (s := "rejected") hok
      simp only [rejectDraftsLoop, hupd]
      apply rejectDraftsLoop_preserves postID rest db' (n + 1)
      intro p hp hpj
      rcases mem_of_mem_updateStatus hupd hp with ⟨p0, -, -, rfl⟩ | ⟨-, hne⟩
      · rfl
      · exact absurd hpj hne
    · have hmem' : j ∈ rest := by
        rcases List.mem_cons.mp hmem with h1 | h1
        · exact absurd h1.symm hj
        · exact h1
      cases hupd : UpdateStatus db postID "rejected" with
      | none =>
        simp only [rejectDraftsLoop, hupd]
        exact ih db n hmem' hok
      | some db' =>
        simp only [rejectDraftsLoop, hupd]
        exact ih db' (n + 1) hmem' (by rw [okUpdStatus_updateStatus hupd]; exact hok)

/-- The count returned by the `rejectDrafts` loop is exactly the number of
batch entries whose status write succeeds. -/
theorem rejectDraftsLoop_count :
    ∀ (ids : List String) (db : Store) (n : Nat),
      (rejectDraftsLoop db ids n).2 = n + (ids.filter (fun i => okUpdStatus db i)).length := by
  intro ids
  induction ids with
  | nil => intro db n; simp [rejectDraftsLoop]
  | cons postID rest ih =>
    intro db n
    by_cases hok : okUpdStatus db postID = true
    · obtain ⟨db', hupd⟩ := updateStatus_of_ok (s := "rejected") hok
      simp only [rejectDraftsLoop, hupd]
      rw [ih db' (n + 1)]
      have hfc : rest.filter (fun i => okUpdStatus db' i) =
          rest.filter (fun i => okUpdStatus db i) :=
        List.filter_congr (fun i _ => by rw [okUpdStatus_updateStatus hupd])
      rw [hfc]
      simp only [List.filter_cons, hok, if_pos, List.length_cons]
      omega
    · rw [Bool.not_eq_true] at hok
      have hupd : UpdateStatus db postID "rejected" = none := by
        unfold UpdateStatus
        by_cases huf : db.updateFails postID = true
        · simp [huf]
        · rw [Bool.not_eq_true] at huf
          by_cases ha : db.posts.any (fun p => p.id == postID) = true
          · exact absurd (okUpdStatus_iff.mpr ⟨huf, ha⟩) (by simp [hok])
          · rw [Bool.not_eq_true] at ha
            simp [huf, ha]
      simp only [rejectDraftsLoop, hupd]
      rw [ih db n]
      simp [List.filter_cons, hok]

/-- The `scheduleDrafts` loop (calendar reaction) is the same function as the
`approveDrafts` loop. -/
theorem scheduleDraftsLoop_eq_approveDraftsLoop :
    ∀ (ids : List String) (db : Store) (n : Nat),
      scheduleDraftsLoop db ids n = approveDraftsLoop db ids n := by
  intro ids
  induction ids with
  | nil => intro db n; rfl
  | cons postID rest ih =>
    intro db n
    cases hget : GetByID db postID with
    | none =>
      simp only [scheduleDraftsLoop, approveDraftsLoop, hget]
      exact ih db n
    | some post =>
      cases hupd : Update db { post with status := "approved" } with
      | none =>
        simp only [scheduleDraftsLoop, approveDraftsLoop, hget, hupd]
        exact ih db n
      | some db' =>
        simp only [scheduleDraftsLoop, approveDraftsLoop, hget, hupd]
        exact ih db' (n + 1)

/-- Every write of the reject-other-variations loop writes status "rejected",
so "all rows with id `j` are rejected" is preserved by it. -/
theorem rejectOthers_preserves (j : String) :
    ∀ (ids : List String) (db : Store) (i index : Nat),
      (∀ p ∈ db.posts, p.id = j → p.status = "rejected") →
      ∀ p ∈ (rejectOthers db ids i index).posts, p.id = j → p.status = "rejected" := by
  intro ids
  induction ids with
  | nil => intro db i index h p hp; exact h p hp
  | cons otherID rest ih =>
    intro db i index h
    by_cases hskip : i = index
    · simp only [rejectOthers, if_pos hskip]
      exact ih db (i + 1) index h
    · simp only [rejectOthers, if_neg hskip]
      cases hupd : UpdateStatus db otherID "rejected" with
      | none => exact ih db (i + 1) index h
      | some db' =>
        apply ih db' (i + 1) index
        intro p hp hpj
        rcases mem_of_mem_updateStatus hupd hp with ⟨p0, -, -, rfl⟩ | ⟨hmem, -⟩
        · rfl
        · exact h p hmem hpj

/-- If `j` occurs in the batch at some position other than the approved index
and its status write is fault-free, the reject-other-variations loop leaves
every row with id `j` rejected — failures on other batch members are ignored
and do not stop it. -/
theorem rejectOthers_sets (j : String) :
    ∀ (ids : List String) (db : Store) (i index : Nat),
      okUpdStatus db j = true →
      (∃ k, ids.get? k = some j ∧ i + k ≠ index) →
      ∀ p ∈ (rejectOthers db ids i index).posts, p.id = j → p.status = "rejected" := by
  intro ids
  induction ids with
  | nil =>
    intro db i index hok hex
    rcases hex with ⟨k, hk, -⟩
    simp at hk
  | cons otherID rest ih =>
    intro db i index hok hex
    rcases hex with ⟨k, hk, hki⟩
    by_cases hskip : i = index
    · simp only [rejectOthers, if_pos hskip]
      cases k with
      | zero => exact absurd (by omega) hki
      | succ k' =>
        refine ih db (i + 1) index hok ⟨k', by simpa using hk, by omega⟩
    · simp only [rejectOthers, if_neg hskip]
      by_cases hhead : otherID = j
      · subst hhead
        obtain ⟨db', hupd⟩ := updateStatus_of_ok (s := "rejected") hok
        rw [hupd]
        apply rejectOthers_preserves otherID rest db' (i + 1) index
        intro p hp hpj
        rcases mem_of_mem_updateStatus hupd hp with ⟨p0, -, -, rfl⟩ | ⟨-, hne⟩
        · rfl
        · exact absurd hpj hne
      · have hex' : ∃ k', rest.get? k' = some j ∧ (i + 1) + k' ≠ index := by
          cases k with
          | zero =>
            have : otherID = j := by simpa using hk
            exact absurd this hhead
          | succ k' => exact ⟨k', by simpa using hk, by omega⟩
        cases hupd : UpdateStatus db otherID "rejected" with
        | none => exact ih db (i + 1) index hok hex'
        | some db' =>
          exact ih db' (i + 1) index
            (by rw [okUpdStatus_updateStatus hupd]; exact hok) hex'

/-- Rows whose id never occurs in the batch at a non-skipped position are not
written by the reject-other-variations loop: any property of them survives. -/
theorem rejectOthers_stable (j : String) (P : Post → Prop) :
    ∀ (ids : List String) (db : Store) (i index : Nat),
      (∀ k, ids.get? k = some j → i + k = index) →
      (∀ p ∈ db.posts, p.id = j → P p) →
      ∀ p ∈ (rejectOthers db ids i index).posts, p.id = j → P p := by
  intro ids
  induction ids with
  | nil => intro db i index _ h p hp; exact h p hp
  | cons otherID rest ih =>
    intro db i index hpos h
    by_cases hskip : i = index
    · simp only [rejectOthers, if_pos hskip]
      refine ih db (i + 1) index (fun k hk => ?_) h
      have := hpos (k + 1) (by simpa using hk)
      omega
    · simp only [rejectOthers, if_neg hskip]
      have hhead : otherID ≠ j := by
        intro hc
        exact hskip (by simpa using hpos 0 (by simp [hc]))
      cases hupd : UpdateStatus db otherID "rejected" with
      | none =>
        refine ih db (i + 1) index (fun k hk => ?_) h
        have := hpos (k + 1) (by simpa using hk)
        omega
      | some db' =>
        refine ih db' (i + 1) index (fun k hk => ?_) ?_
        · have := hpos (k + 1) (by simpa using hk)
          omega
        · intro p hp hpj
          rcases mem_of_mem_updateStatus hupd hp with ⟨p0, -, hpid, rfl⟩ | ⟨hmem, -⟩
          · exact absurd (by simpa [hpid] using hpj) hhead
          · exact h p hmem hpj

/-!
## The lifecycle data-model invariant
-/

/-- The spec's data-model invariant for one row: `scheduledAt` is set iff the
status is "scheduled" or "published", and `publishedAt` is set only when the
status is "published". -/
def PostInv (p : Post) : Prop :=
  (p.scheduledAt ≠ none ↔ (p.status = "scheduled" ∨ p.status = "published")) ∧
    (p.publishedAt ≠ none → p.status = "published")

instance (p : Post) : Decidable (PostInv p) := by
  unfold PostInv
  infer_instance

/-- The invariant over the whole store. -/
def StoreInv (db : Store) : Prop := ∀ p ∈ db.posts, PostInv p

instance (db : Store) : Decidable (StoreInv db) := by
  unfold StoreInv
  infer_instance

/-- A row that is neither scheduled nor published. -/
def notSchedPub (p : Post) : Prop :=
  p.status ≠ "scheduled" ∧ p.status ≠ "published"

/-- Under the invariant, a row that is neither scheduled nor published has
both optional timestamps unset. -/
theorem fields_none_of_inv {p : Post} (hinv : PostInv p) (hns : notSchedPub p) :
    p.scheduledAt = none ∧ p.publishedAt = none := by
  rcases hinv with ⟨hiff, himp⟩
  constructor
  · by_contra hs
    rcases hiff.mp hs with h | h
    · exact hns.1 h
    · exact hns.2 h
  · by_contra hp
    exact hns.2 (himp hp)

/-- Writing a row that satisfies the invariant preserves the store invariant. -/
theorem update_inv {db : Store} {q : Post} {db' : Store} (hdb : StoreInv db)
    (hq : PostInv q) (h : Update db q = some db') : StoreInv db' := by
  intro p hp
  rcases mem_of_mem_update h hp with rfl | ⟨hmem, -⟩
  · exact hq
  · exact hdb p hmem

/-- A status-only write preserves the store invariant provided the new status
is invariant-compatible with every matching row. -/
theorem updateStatus_inv {db : Store} {id status : String} {db' : Store}
    (hdb : StoreInv db)
    (hrows : ∀ p ∈ db.posts, p.id = id → PostInv { p with status := status })
    (h : UpdateStatus db id status = some db') : StoreInv db' := by
  intro p hp
  rcases mem_of_mem_updateStatus h hp with ⟨p0, hp0, hpid, rfl⟩ | ⟨hmem, -⟩
  · exact hrows p0 hp0 hpid
  · exact hdb p hmem

/-- Writing status "approved" to a row that was neither scheduled nor
published yields an invariant row. -/
theorem approved_postInv {p : Post} (hinv : PostInv p) (hns : notSchedPub p) :
    PostInv { p with status := "approved" } := by
  rcases fields_none_of_inv hinv hns with ⟨hs, hp⟩
  constructor
  · simp [hs]
  · simp [hp]

/-- Writing status "rejected" to a row that was neither scheduled nor
published yields an invariant row. -/
theorem rejected_postInv {p : Post} (hinv : PostInv p) (hns : notSchedPub p) :
    PostInv { p with status := "rejected" } := by
  rcases fields_none_of_inv hinv hns with ⟨hs, hp⟩
  constructor
  · simp [hs]
  · simp [hp]

/-- The `approveDrafts` loop preserves the store invariant when no batch
member is scheduled or published. -/
theorem approveDraftsLoop_inv :
    ∀ (ids : List String) (db : Store) (n : Nat), StoreInv db →
      (∀ p ∈ db.posts, p.id ∈ ids → notSchedPub p) →
      StoreInv (approveDraftsLoop db ids n).1 := by
  intro ids
  induction ids with
  | nil => intro db n hdb _; exact hdb
  | cons postID rest ih =>
    intro db n hdb hbatch
    cases hget : GetByID db postID with
    | none =>
      simp only [approveDraftsLoop, hget]
      exact ih db n hdb (fun p hp hid => hbatch p hp (List.mem_cons_of_mem _ hid))
    | some post =>
      cases hupd : Update db { post with status := "approved" } with
      | none =>
        simp only [approveDraftsLoop, hget, hupd]
        exact ih db n hdb (fun p hp hid => hbatch p hp (List.mem_cons_of_mem _ hid))
      | some db' =>
        simp only [approveDraftsLoop, hget, hupd]
        have hmem := (GetByID_mem hget).1
        have hpid := (GetByID_mem hget).2
        have hns : notSchedPub post :=
          hbatch post hmem (by rw [hpid]; exact List.mem_cons_self _ _)
        have hinv' : StoreInv db' :=
          update_inv hdb (approved_postInv (hdb post hmem) hns) hupd
        refine ih db' (n + 1) hinv' ?_
        intro p hp hid
        rcases mem_of_mem_update hupd hp with rfl | ⟨hmem', -⟩
        · constructor <;> simp
        · exact hbatch p hmem' (List.mem_cons_of_mem _ hid)

/-- The `rejectDrafts` loop preserves the store invariant when no batch
member is scheduled or published. -/
theorem rejectDraftsLoop_inv :
    ∀ (ids : List String) (db : Store) (n : Nat), StoreInv db →
      (∀ p ∈ db.posts, p.id ∈ ids → notSchedPub p) →
      StoreInv (rejectDraftsLoop db ids n).1 := by
  intro ids
  induction ids with
  | nil => intro db n hdb _; exact hdb
  | cons postID rest ih =>
    intro db n hdb hbatch
    cases hupd : UpdateStatus db postID "rejected" with
    | none =>
      simp only [rejectDraftsLoop, hupd]
      exact ih db n hdb (fun p hp hid => hbatch p hp (List.mem_cons_of_mem _ hid))
    | some db' =>
      simp only [rejectDraftsLoop, hupd]
      have hinv' : StoreInv db' := by
        refine updateStatus_inv hdb ?_ hupd
        intro p hp hpid
        exact rejected_postInv (hdb p hp)
          (hbatch p hp (by rw [hpid]; exact List.mem_cons_self _ _))
      refine ih db' (n + 1) hinv' ?_
      intro p hp hid
      rcases mem_of_mem_updateStatus hupd hp with ⟨p0, hp0, -, rfl⟩ | ⟨hmem', -⟩
      · constructor <;> simp
      · exact hbatch p hmem' (List.mem_cons_of_mem _ hid)

/-- The reject-other-variations loop preserves the store invariant when no
batch member is scheduled or published. -/
theorem rejectOthers_inv :
    ∀ (ids : List String) (db : Store) (i index : Nat), StoreInv db →
      (∀ p ∈ db.posts, p.id ∈ ids → notSchedPub p) →
      StoreInv (rejectOthers db ids i index) := by
  intro ids
  induction ids with
  | nil => intro db i index hdb _; exact hdb
  | cons otherID rest ih =>
    intro db i index hdb hbatch
    by_cases hskip : i = index
    · simp only [rejectOthers, if_pos hskip]
      exact ih db (i + 1) index hdb (fun p hp hid => hbatch p hp (List.mem_cons_of_mem _ hid))
    · simp only [rejectOthers, if_neg hskip]
      cases hupd : UpdateStatus db otherID "rejected" with
      | none =>
        exact ih db (i + 1) index hdb
          (fun p hp hid => hbatch p hp (List.mem_cons_of_mem _ hid))
      | some db' =>
        have hinv' : StoreInv db' := by
          refine updateStatus_inv hdb ?_ hupd
          intro p hp hpid
          exact rejected_postInv (hdb p hp)
            (hbatch p hp (by rw [hpid]; exact List.mem_cons_self _ _))
        refine ih db' (i + 1) index hinv' ?_
        intro p hp hid
        rcases mem_of_mem_updateStatus hupd hp with ⟨p0, hp0, -, rfl⟩ | ⟨hmem', -⟩
        · constructor <;> simp
        · exact hbatch p hmem' (List.mem_cons_of_mem _ hid)

/-- `approveSpecificDraft` preserves the store invariant when no batch member
is scheduled or published. -/
theorem approveSpecificDraft_inv {db : Store} {ev : ReactionEvent} {ids : List String}
    {index : Nat} (hdb : StoreInv db)
    (hbatch : ∀ p ∈ db.posts, p.id ∈ ids → notSchedPub p) :
    StoreInv (approveSpecificDraft db ev ids index).1 := by
  unfold approveSpecificDraft
  split
  · exact hdb
  · dsimp only
    split
    · exact hdb
    · rename_i post heq
      split
      · exact hdb
      · rename_i db' hupd
        have hmem := (GetByID_mem heq).1
        have hpid := (GetByID_mem heq).2
        have hidmem : post.id ∈ ids := by
          rw [hpid]
          exact List.get_mem ids _ _
        have hns := hbatch post hmem hidmem
        have hinv' := update_inv hdb (approved_postInv (hdb post hmem) hns) hupd
        refine rejectOthers_inv ids db' 0 index hinv' ?_
        intro p hp hid
        rcases mem_of_mem_update hupd hp with rfl | ⟨hmem', -⟩
        · constructor <;> simp
        · exact hbatch p hmem' hid

/-- The calendar loop preserves the store invariant when no batch member is
scheduled or published. -/
theorem scheduleDraftsLoop_inv :
    ∀ (ids : List String) (db : Store) (n : Nat), StoreInv db →
      (∀ p ∈ db.posts, p.id ∈ ids → notSchedPub p) →
      StoreInv (scheduleDraftsLoop db ids n).1 := by
  intro ids db n hdb hbatch
  rw [scheduleDraftsLoop_eq_approveDraftsLoop]
  exact approveDraftsLoop_inv ids db n hdb hbatch

/-- Any single `HandleReaction` call preserves the store invariant, provided
no post of the tracked batch (if any) is scheduled or published. -/
theorem HandleReaction_inv {cache : DraftCache} {db : Store} {ev : ReactionEvent}
    (hdb : StoreInv db)
    (hbatch : ∀ ids, cache ev.itemTimestamp = some ids →
      ∀ p ∈ db.posts, p.id ∈ ids → notSchedPub p) :
    StoreInv (HandleReaction cache db ev).1 := by
  rcases hc : cache ev.itemTimestamp with _ | ids
  · simp only [HandleReaction, hc]
    exact hdb
  · have hb := hbatch ids hc
    simp only [HandleReaction, hc]
    split
    · exact approveDraftsLoop_inv ids db 0 hdb hb
    · split
      · exact rejectDraftsLoop_inv ids db 0 hdb hb
      · split
        · exact approveSpecificDraft_inv hdb hb
        · split
          · exact approveSpecificDraft_inv hdb hb
          · split
            · exact approveSpecificDraft_inv hdb hb
            · split
              · exact scheduleDraftsLoop_inv ids db 0 hdb hb
              · exact hdb

/-- The scheduling loop preserves the store invariant when every batch member
is an invariant "approved" row. -/
theorem schedLoop_inv (times : List String) (loc : String) :
    ∀ (batch : List Post) (db : Store) (date idx n : Nat), StoreInv db →
      (∀ q ∈ batch, q.status = "approved" ∧ PostInv q) →
      StoreInv (schedLoop times loc batch db date idx n).1 := by
  intro batch
  induction batch with
  | nil => intro db date idx n hdb _; exact hdb
  | cons post rest ih =>
    intro db date idx n hdb hb
    cases ht : times.get? idx with
    | none => simp only [schedLoop, ht]; exact hdb
    | some timeStr =>
      cases hcalc : calculateScheduledTime date timeStr loc with
      | none =>
        simp only [schedLoop, ht, hcalc]
        exact ih db date idx n hdb (fun q hq => hb q (List.mem_cons_of_mem _ hq))
      | some t =>
        cases hupd : Update db { post with scheduledAt := some t, status := "scheduled" } with
        | none =>
          simp only [schedLoop, ht, hcalc, hupd]
          exact ih db date idx n hdb (fun q hq => hb q (List.mem_cons_of_mem _ hq))
        | some db' =>
          have hpost := hb post (List.mem_cons_self _ _)
          have hq : PostInv { post with scheduledAt := some t, status := "scheduled" } := by
            constructor
            · simp
            · intro hpub
              have hnone : post.publishedAt = none := by
                by_contra hc
                have hps := hpost.2.2 hc
                rw [hpost.1] at hps
                simp at hps
              simp [hnone] at hpub
          have hinv' := update_inv hdb hq hupd
          simp only [schedLoop, ht, hcalc, hupd]
          split
          · exact ih db' (date + 1) 0 (n + 1) hinv'
              (fun q hq' => hb q (List.mem_cons_of_mem _ hq'))
          · exact ih db' date (idx + 1) (n + 1) hinv'
              (fun q hq' => hb q (List.mem_cons_of_mem _ hq'))

/-- `ScheduleApprovedPosts` preserves the store invariant unconditionally. -/
theorem ScheduleApprovedPosts_inv (tzdb : String → Bool) (db : Store)
    (config : ScheduleConfig) (hdb : StoreInv db) :
    StoreInv (ScheduleApprovedPosts tzdb db config).1 := by
  rcases hgs : GetByStatus db "approved" with _ | batch
  · simp only [ScheduleApprovedPosts, hgs]
    exact hdb
  · simp only [ScheduleApprovedPosts, hgs]
    split
    · exact hdb
    · refine schedLoop_inv _ _ batch db config.startDate 0 0 hdb ?_
      intro q hq
      have hbatch : batch = db.posts.filter (fun p => p.status == "approved") := by
        unfold GetByStatus at hgs
        split at hgs
        · exact absurd hgs (by simp)
        · simpa using hgs.symm
      rw [hbatch] at hq
      have hmem := List.mem_of_mem_filter hq
      have hst : q.status = "approved" := by simpa using List.of_mem_filter hq
      exact ⟨hst, hdb q hmem⟩

/-- `CancelSchedule` preserves the store invariant, provided the target post
is not published (its `publishedAt` is not cleared by the operation). -/
theorem CancelSchedule_inv {db : Store} {postID : String} (hdb : StoreInv db)
    (hnp : ∀ p ∈ db.posts, p.id = postID → p.status ≠ "published") :
    StoreInv (CancelSchedule db postID).1 := by
  rcases hget : GetByID db postID with _ | post
  · simp only [CancelSchedule, hget]
    exact hdb
  · rcases hupd : Update db { post with status := "approved", scheduledAt := none } with _ | db'
    · simp only [CancelSchedule, hget, hupd]
      exact hdb
    · simp only [CancelSchedule, hget, hupd]
      have hmem := (GetByID_mem hget).1
      have hpid := (GetByID_mem hget).2
      have hpinv := hdb post hmem
      have hpub : post.publishedAt = none := by
        by_contra hc
        exact hnp post hmem hpid (hpinv.2 hc)
      refine update_inv hdb ?_ hupd
      constructor
      · simp
      · intro hp
        simp [hpub] at hp

/-- After a successful `Update`, every row carrying the written id equals the
written value. -/
theorem update_sets_id {db : Store} {q : Post} {db' : Store}
    (h : Update db q = some db') : ∀ p ∈ db'.posts, p.id = q.id → p = q := by
  intro p hp hpid
  rcases mem_of_mem_update h hp with rfl | ⟨-, hne⟩
  · rfl
  · exact absurd hpid hne

/-- A successful `Update` leaves rows with a different id untouched, so any
property of them survives. -/
theorem update_pres_ne {db : Store} {q : Post} {db' : Store}
    (h : Update db q = some db') {j : String} (hne : j ≠ q.id) {P : Post → Prop}
    (hP : ∀ p ∈ db.posts, p.id = j → P p) : ∀ p ∈ db'.posts, p.id = j → P p := by
  intro p hp hpj
  rcases mem_of_mem_update h hp with rfl | ⟨hmem, -⟩
  · exact absurd hpj.symm hne
  · exact hP p hmem hpj

/-- `Update` succeeds exactly when no write fault is injected and a row with
the id exists. -/
theorem update_succeeds {db : Store} {q : Post}
    (h1 : db.updateFails q.id = false)
    (h2 : db.posts.any (fun p => p.id == q.id) = true) :
    ∃ db', Update db q = some db' :=
  ⟨_, Update_eq_some.mpr ⟨h1, h2, rfl⟩⟩

/-- A draft cache built by a sequence of `StoreDraftMessage` calls starting
from the empty cache of `NewApprovalHandler`. -/
def buildDraftCache (ops : List (String × List String)) : DraftCache :=
  ops.foldl (fun c kv => StoreDraftMessage c kv.1 kv.2) emptyDraftCache

/-- A message id never passed to `StoreDraftMessage` is absent from the
cache. -/
theorem buildDraftCache_not_mem {ops : List (String × List String)} {m : String}
    (h : m ∉ ops.map Prod.fst) : buildDraftCache ops m = none := by
  suffices hgen : ∀ c : DraftCache, c m = none →
      (ops.foldl (fun c kv => StoreDraftMessage c kv.1 kv.2) c) m = none from
    hgen emptyDraftCache rfl
  induction ops with
  | nil => intro c hc; exact hc
  | cons kv rest ih =>
    intro c hc
    have hm1 : m ≠ kv.1 := by
      intro hcon
      exact h (by rw [hcon]; exact List.mem_cons_self _ _)
    refine ih (fun hmem => h (List.mem_cons_of_mem _ hmem)) _ ?_
    simp [StoreDraftMessage, hm1, hc]

/-!
## Concrete fixtures used by counterexamples and witnesses
-/

def sampleTime : LocalTime := { day := 10, hour := 12, minute := 0, loc := "UTC" }

def postRejected : Post :=
  { id := "p1", content := "c1", status := "rejected", scheduledAt := none,
    publishedAt := none }

def postScheduled : Post :=
  { id := "p2", content := "c2", status := "scheduled", scheduledAt := some sampleTime,
    publishedAt := none }

def draftPost (i : String) : Post :=
  { id := i, content := "c", status := "draft", scheduledAt := none, publishedAt := none }

def approvedPost (i : String) : Post :=
  { id := i, content := "c", status := "approved", scheduledAt := none,
    publishedAt := none }

def noFailStore (ps : List Post) : Store :=
  { posts := ps, getFails := fun _ => false, updateFails := fun _ => false,
    listFails := false }

def checkEv : ReactionEvent :=
  { reaction := "white_check_mark", itemTimestamp := "m", itemChannel := "C" }

def oneEv : ReactionEvent :=
  { reaction := "one", itemTimestamp := "m", itemChannel := "C" }

/-!
## Claim C1
-/

/-- Claim C1 is false of the code: a single check-mark `HandleReaction` call on
a tracked batch containing a "rejected" post silently moves that post to
"approved" — the terminal state is not terminal, no `PreconditionFailed` error
exists, and the call reports success. -/
theorem C1_counterexample :
    (HandleReaction (StoreDraftMessage emptyDraftCache "m" ["p1"])
        (noFailStore [postRejected]) checkEv).1.posts =
      [{ postRejected with status := "approved" }] ∧
    (HandleReaction (StoreDraftMessage emptyDraftCache "m" ["p1"])
        (noFailStore [postRejected]) checkEv).2 =
      ReactionResult.sent ("C") (approvedAllMsg 1) := by
  constructor
  · decide
  · decide

/-- C1 (amended): the Approval Resolver performs no source-state check at all
and defines no `PreconditionFailed` error.  A check-mark reaction on a tracked
batch sets every batch post whose read and write are fault-free to "approved"
regardless of its previous status — including "rejected" and "published" — and
the call reports success, not an error. -/
theorem C1_amended_no_precondition (cache : DraftCache) (db : Store)
    (ev : ReactionEvent) (ids : List String) (j : String)
    (hc : cache ev.itemTimestamp = some ids)
    (hr : ev.reaction = "white_check_mark")
    (hj : j ∈ ids) (hok : okGetUpd db j = true) :
    (∀ p ∈ (HandleReaction cache db ev).1.posts, p.id = j → p.status = "approved") ∧
      (HandleReaction cache db ev).2 =
        ReactionResult.sent ev.itemChannel (approvedAllMsg (approveDraftsLoop db ids 0).2) := by
  have hred : HandleReaction cache db ev = approveDrafts db ev ids := by
    simp only [HandleReaction, hc, hr]
    simp
  rw [hred]
  constructor
  · exact approveDraftsLoop_sets j ids db 0 hj hok
  · rfl

/-- Witness for the amended C1 at a concrete rejected post. -/
theorem C1_witness :
    (∀ p ∈ (HandleReaction (StoreDraftMessage emptyDraftCache "m" ["p1"])
        (noFailStore [postRejected]) checkEv).1.posts,
        p.id = "p1" → p.status = "approved") ∧
      (HandleReaction (StoreDraftMessage emptyDraftCache "m" ["p1"])
        (noFailStore [postRejected]) checkEv).2 =
        ReactionResult.sent checkEv.itemChannel
          (approvedAllMsg (approveDraftsLoop (noFailStore [postRejected]) ["p1"] 0).2) :=
  C1_amended_no_precondition _ _ _ _ "p1" rfl rfl (by decide) (by decide)

/-!
## Claim C2
-/

/-- Claim C2 is false of the code: starting from a store satisfying the
data-model invariant, one check-mark `HandleReaction` call on a batch holding
a "scheduled" post yields a store violating it — the post becomes "approved"
while its `scheduledAt` stays set, because resolver transitions never clear
the timestamp fields. -/
theorem C2_counterexample :
    StoreInv (noFailStore [postScheduled]) ∧
      ¬ StoreInv (HandleReaction (StoreDraftMessage emptyDraftCache "m" ["p2"])
          (noFailStore [postScheduled]) checkEv).1 := by
  constructor
  · decide
  · decide

/-- C2 (amended): the invariant (`scheduledAt` set iff status is "scheduled"
or "published"; `publishedAt` set only when "published") is preserved by
`ScheduleApprovedPosts` unconditionally; by `CancelSchedule` provided the
target post is not "published" (the operation never clears `publishedAt`);
and by every Approval Resolver reaction provided no post of the tracked batch
is "scheduled" or "published" (resolver transitions never clear either
timestamp field, so they preserve the invariant exactly when both timestamps
are already unset). -/
theorem C2_amended_invariant_preservation :
    (∀ (tzdb : String → Bool) (db : Store) (config : ScheduleConfig),
        StoreInv db → StoreInv (ScheduleApprovedPosts tzdb db config).1) ∧
      (∀ (db : Store) (postID : String), StoreInv db →
        (∀ p ∈ db.posts, p.id = postID → p.status ≠ "published") →
        StoreInv (CancelSchedule db postID).1) ∧
      (∀ (cache : DraftCache) (db : Store) (ev : ReactionEvent), StoreInv db →
        (∀ ids, cache ev.itemTimestamp = some ids →
          ∀ p ∈ db.posts, p.id ∈ ids → notSchedPub p) →
        StoreInv (HandleReaction cache db ev).1) :=
  ⟨fun tzdb db config h => ScheduleApprovedPosts_inv tzdb db config h,
   fun _ _ h hnp => CancelSchedule_inv h hnp,
   fun _ _ _ h hb => HandleReaction_inv h hb⟩

instance (p : Post) : Decidable (notSchedPub p) := by
  unfold notSchedPub
  infer_instance

/-- Witness for the amended C2 at concrete stores. -/
theorem C2_witness :
    StoreInv (ScheduleApprovedPosts (fun _ => true) (noFailStore [approvedPost "p3"])
        { postsPerDay := 2, preferredTimes := [], startDate := 0, timezone := "UTC" }).1 ∧
      StoreInv (CancelSchedule (noFailStore [postScheduled]) "p2").1 ∧
      StoreInv (HandleReaction (StoreDraftMessage emptyDraftCache "m" ["p1"])
        (noFailStore [draftPost "p1"]) checkEv).1 := by
  refine ⟨C2_amended_invariant_preservation.1 _ _ _ (by decide),
    C2_amended_invariant_preservation.2.1 _ _ (by decide) (by decide),
    C2_amended_invariant_preservation.2.2 _ _ _ (by decide) ?_⟩
  intro ids h
  have h' : (some ["p1"] : Option (List String)) = some ids := h
  obtain rfl := Option.some.inj h'
  decide

/-!
## Claim C3
-/

/-- Claim C3: with `postsPerDay = 2`, no explicit slots (the default table
`[09:00, 15:00]` applies), start date `D` and the store returning the approved
posts `[pA, pB, pC]` in that order, `ScheduleApprovedPosts` schedules `pA` at
day `D` 09:00, `pB` at day `D` 15:00 and `pC` at day `D+1` 09:00 in the
resolved timezone, moving each from "approved" to "scheduled" and reporting
count 3. -/
theorem C3_round_robin (tzdb : String → Bool) (db : Store) (tz loc : String)
    (D : Nat) (pA pB pC : Post)
    (hloc : loadLocation tzdb tz = loc)
    (hfilter : db.posts.filter (fun p => p.status == "approved") = [pA, pB, pC])
    (hAB : pA.id ≠ pB.id) (hAC : pA.id ≠ pC.id) (hBC : pB.id ≠ pC.id)
    (hfa : db.updateFails pA.id = false) (hfb : db.updateFails pB.id = false)
    (hfc : db.updateFails pC.id = false) (hlist : db.listFails = false) :
    (∀ p ∈ (ScheduleApprovedPosts tzdb db
        { postsPerDay := 2, preferredTimes := [], startDate := D, timezone := tz }).1.posts,
      p.id = pA.id → p.status = "scheduled" ∧ p.scheduledAt = some ⟨D, 9, 0, loc⟩) ∧
    (∀ p ∈ (ScheduleApprovedPosts tzdb db
        { postsPerDay := 2, preferredTimes := [], startDate := D, timezone := tz }).1.posts,
      p.id = pB.id → p.status = "scheduled" ∧ p.scheduledAt = some ⟨D, 15, 0, loc⟩) ∧
    (∀ p ∈ (ScheduleApprovedPosts tzdb db
        { postsPerDay := 2, preferredTimes := [], startDate := D, timezone := tz }).1.posts,
      p.id = pC.id → p.status = "scheduled" ∧ p.scheduledAt = some ⟨D + 1, 9, 0, loc⟩) ∧
    (ScheduleApprovedPosts tzdb db
        { postsPerDay := 2, preferredTimes := [], startDate := D, timezone := tz }).2 =
      Except.ok 3 := by
  have hmemA : pA ∈ db.posts :=
    List.mem_of_mem_filter (p := fun p => p.status == "approved")
      (by rw [hfilter]; exact List.mem_cons_self _ _)
  have hmemB : pB ∈ db.posts :=
    List.mem_of_mem_filter (p := fun p => p.status == "approved")
      (by rw [hfilter]; exact List.mem_cons_of_mem _ (List.mem_cons_self _ _))
  have hmemC : pC ∈ db.posts :=
    List.mem_of_mem_filter (p := fun p => p.status == "approved")
      (by rw [hfilter]
          exact List.mem_cons_of_mem _ (List.mem_cons_of_mem _ (List.mem_cons_self _ _)))
  have hanyA : db.posts.any (fun p => p.id == pA.id) = true :=
    List.any_eq_true.mpr ⟨pA, hmemA, by simp⟩
  obtain ⟨db1, hup1⟩ :=
    update_succeeds (q := { pA with scheduledAt := some ⟨D, 9, 0, loc⟩, status := "scheduled" }) hfa hanyA
  have hanyB1 : db1.posts.any (fun p => p.id == pB.id) = true := by
    rw [any_id_congr (update_map_id hup1) pB.id]
    exact List.any_eq_true.mpr ⟨pB, hmemB, by simp⟩
  have hfb1 : db1.updateFails pB.id = false := by
    rw [(update_fields hup1).2.1]
    exact hfb
  obtain ⟨db2, hup2⟩ :=
    update_succeeds (q := { pB with scheduledAt := some ⟨D, 15, 0, loc⟩, status := "scheduled" }) hfb1 hanyB1
  have hanyC2 : db2.posts.any (fun p => p.id == pC.id) = true := by
    rw [any_id_congr (update_map_id hup2) pC.id,
      any_id_congr (update_map_id hup1) pC.id]
    exact List.any_eq_true.mpr ⟨pC, hmemC, by simp⟩
  have hfc2 : db2.updateFails pC.id = false := by
    rw [(update_fields hup2).2.1, (update_fields hup1).2.1]
    exact hfc
  obtain ⟨db3, hup3⟩ :=
    update_succeeds (q := { pC with scheduledAt := some ⟨D + 1, 9, 0, loc⟩, status := "scheduled" }) hfc2 hanyC2
  have hc1 : calculateScheduledTime D ("09:00") loc = some ⟨D, 9, 0, loc⟩ := rfl
  have hc2 : calculateScheduledTime D ("15:00") loc = some ⟨D, 15, 0, loc⟩ := rfl
  have hc3 : calculateScheduledTime (D + 1) ("09:00") loc = some ⟨D + 1, 9, 0, loc⟩ := rfl
  have hrun : schedLoop ["09:00", "15:00"] loc [pA, pB, pC] db D 0 0 = (db3, 3) := by
    norm_num [schedLoop, hc1, hc2, hc3, hup1, hup2, hup3]
  have hgs : GetByStatus db ("approved") = some [pA, pB, pC] := by
    simp [GetByStatus, hlist, hfilter]
  have hsched : ScheduleApprovedPosts tzdb db
      { postsPerDay := 2, preferredTimes := [], startDate := D, timezone := tz } =
        (db3, Except.ok 3) := by
    have htimes : getDefaultTimes 2 = ["09:00", "15:00"] := rfl
    simp only [ScheduleApprovedPosts, hgs]
    norm_num [htimes, hloc, hrun]
  rw [hsched]
  have hA : ∀ p ∈ db3.posts, p.id = pA.id →
      p = { pA with scheduledAt := some ⟨D, 9, 0, loc⟩, status := "scheduled" } := by
    refine update_pres_ne hup3 hAC ?_
    refine update_pres_ne hup2 hAB ?_
    exact update_sets_id hup1
  have hB : ∀ p ∈ db3.posts, p.id = pB.id →
      p = { pB with scheduledAt := some ⟨D, 15, 0, loc⟩, status := "scheduled" } := by
    refine update_pres_ne hup3 hBC ?_
    exact update_sets_id hup2
  have hC : ∀ p ∈ db3.posts, p.id = pC.id →
      p = { pC with scheduledAt := some ⟨D + 1, 9, 0, loc⟩, status := "scheduled" } :=
    update_sets_id hup3
  refine ⟨fun p hp hpid => ?_, fun p hp hpid => ?_, fun p hp hpid => ?_, rfl⟩
  · rw [hA p hp hpid]
    exact ⟨rfl, rfl⟩
  · rw [hB p hp hpid]
    exact ⟨rfl, rfl⟩
  · rw [hC p hp hpid]
    exact ⟨rfl, rfl⟩

/-- Witness for C3 at a concrete store of three approved posts. -/
theorem C3_witness :
    (∀ p ∈ (ScheduleApprovedPosts (fun _ => true)
        (noFailStore [approvedPost "a", approvedPost "b", approvedPost "c"])
        { postsPerDay := 2, preferredTimes := [], startDate := 100,
          timezone := "Asia/Kolkata" }).1.posts,
      p.id = (approvedPost "a").id →
        p.status = "scheduled" ∧ p.scheduledAt = some ⟨100, 9, 0, "Asia/Kolkata"⟩) ∧
    (∀ p ∈ (ScheduleApprovedPosts (fun _ => true)
        (noFailStore [approvedPost "a", approvedPost "b", approvedPost "c"])
        { postsPerDay := 2, preferredTimes := [], startDate := 100,
          timezone := "Asia/Kolkata" }).1.posts,
      p.id = (approvedPost "b").id →
        p.status = "scheduled" ∧ p.scheduledAt = some ⟨100, 15, 0, "Asia/Kolkata"⟩) ∧
    (∀ p ∈ (ScheduleApprovedPosts (fun _ => true)
        (noFailStore [approvedPost "a", approvedPost "b", approvedPost "c"])
        { postsPerDay := 2, preferredTimes := [], startDate := 100,
          timezone := "Asia/Kolkata" }).1.posts,
      p.id = (approvedPost "c").id →
        p.status = "scheduled" ∧ p.scheduledAt = some ⟨100 + 1, 9, 0, "Asia/Kolkata"⟩) ∧
    (ScheduleApprovedPosts (fun _ => true)
        (noFailStore [approvedPost "a", approvedPost "b", approvedPost "c"])
        { postsPerDay := 2, preferredTimes := [], startDate := 100,
          timezone := "Asia/Kolkata" }).2 = Except.ok 3 :=
  C3_round_robin (fun _ => true) _ "Asia/Kolkata" "Asia/Kolkata" 100 _ _ _
    rfl (by decide) (by decide) (by decide) (by decide) rfl rfl rfl rfl

/-!
## Claim C4
-/

/-- Claim C4: a numeral-1 reaction on a tracked message whose stored batch is
`[p1, p2, p3]` (three distinct posts, all reachable and writable) sets the
first post's status to "approved" and the other two to "rejected". -/
theorem C4_approve_index_one (cache : DraftCache) (db : Store) (ev : ReactionEvent)
    (i1 i2 i3 : String)
    (hc : cache ev.itemTimestamp = some [i1, i2, i3])
    (hr : ev.reaction = "one")
    (h12 : i1 ≠ i2) (h13 : i1 ≠ i3)
    (hok1 : okGetUpd db i1 = true) (hok2 : okUpdStatus db i2 = true)
    (hok3 : okUpdStatus db i3 = true) :
    (∀ p ∈ (HandleReaction cache db ev).1.posts, p.id = i1 → p.status = "approved") ∧
      (∀ p ∈ (HandleReaction cache db ev).1.posts, p.id = i2 → p.status = "rejected") ∧
      (∀ p ∈ (HandleReaction cache db ev).1.posts, p.id = i3 → p.status = "rejected") := by
  have hred : HandleReaction cache db ev = approveSpecificDraft db ev [i1, i2, i3] 0 := by
    simp only [HandleReaction, hc, hr]
    simp
  rw [hred]
  obtain ⟨post, hget⟩ := getByID_of_ok hok1
  have hpid : post.id = i1 := (GetByID_mem hget).2
  obtain ⟨db', hupd⟩ :=
    update_of_ok (q := { post with status := "approved" }) hok1 (by simpa using hpid)
  have hbase1 : ∀ p ∈ db'.posts, p.id = i1 → p.status = "approved" := by
    intro p hp hpj
    have := update_sets_id hupd p hp (by simpa [hpid] using hpj)
    rw [this]
  have hok2' : okUpdStatus db' i2 = true := by
    rw [okUpdStatus_update hupd]
    exact hok2
  have hok3' : okUpdStatus db' i3 = true := by
    rw [okUpdStatus_update hupd]
    exact hok3
  have hrun : approveSpecificDraft db ev [i1, i2, i3] 0 =
      (rejectOthers db' [i1, i2, i3] 0 0,
        ReactionResult.sent ev.itemChannel (approvedVariationMsg 1)) := by
    unfold approveSpecificDraft
    rw [dif_neg (by simp)]
    have hsel : ∀ (h : 0 < [i1, i2, i3].length), [i1, i2, i3].get ⟨0, h⟩ = i1 :=
      fun _ => rfl
    simp only [hsel, hget, hupd, Nat.zero_add]
  rw [hrun]
  refine ⟨?_, ?_, ?_⟩
  · refine rejectOthers_stable i1 (fun p => p.status = "approved") _ db' 0 0 ?_ hbase1
    intro k hk
    match k with
    | 0 => rfl
    | 1 =>
      have : i2 = i1 := by simpa using hk
      exact absurd this.symm h12
    | 2 =>
      have : i3 = i1 := by simpa using hk
      exact absurd this.symm h13
    | (n + 3) => simp at hk
  · refine rejectOthers_sets i2 [i1, i2, i3] db' 0 0 hok2' ⟨1, by simp, by omega⟩
  · refine rejectOthers_sets i3 [i1, i2, i3] db' 0 0 hok3' ⟨2, by simp, by omega⟩

/-- Witness for C4 at a concrete three-draft batch. -/
theorem C4_witness :
    (∀ p ∈ (HandleReaction (StoreDraftMessage emptyDraftCache "m" ["q1", "q2", "q3"])
        (noFailStore [draftPost "q1", draftPost "q2", draftPost "q3"]) oneEv).1.posts,
      p.id = "q1" → p.status = "approved") ∧
      (∀ p ∈ (HandleReaction (StoreDraftMessage emptyDraftCache "m" ["q1", "q2", "q3"])
        (noFailStore [draftPost "q1", draftPost "q2", draftPost "q3"]) oneEv).1.posts,
        p.id = "q2" → p.status = "rejected") ∧
      (∀ p ∈ (HandleReaction (StoreDraftMessage emptyDraftCache "m" ["q1", "q2", "q3"])
        (noFailStore [draftPost "q1", draftPost "q2", draftPost "q3"]) oneEv).1.posts,
        p.id = "q3" → p.status = "rejected") :=
  C4_approve_index_one _ _ _ "q1" "q2" "q3" rfl rfl (by decide) (by decide)
    (by decide) (by decide) (by decide)

/-!
## Claim C5
-/

def failGetP1Store : Store :=
  { posts := [draftPost "p1", draftPost "p2"], getFails := fun s => s == "p1",
    updateFails := fun _ => false, listFails := false }

/-- Claim C5 is false of the code: when the store read of the selected post of
a numeral-1 reaction fails, the resolver aborts with an error before touching
the rest of the batch — the remaining post keeps its status instead of being
transitioned, and an error (not a count) is reported. -/
theorem C5_counterexample :
    (HandleReaction (StoreDraftMessage emptyDraftCache "m" ["p1", "p2"])
        failGetP1Store oneEv).1.posts = [draftPost "p1", draftPost "p2"] ∧
      (HandleReaction (StoreDraftMessage emptyDraftCache "m" ["p1", "p2"])
        failGetP1Store oneEv).2 = ReactionResult.failed ("failed to get post p1") := by
  constructor
  · decide
  · decide

/-- C5 (amended): the batch handlers (approve-all and reject-all; the calendar
handler is the same function as approve-all) skip a failing post, continue
through the remaining batch, and report a count equal to exactly the number of
posts whose transition succeeded.  The approve-index(N) handler ignores
failures only inside its reject-the-other-variations loop, which does
continue; but a failure reading the selected post itself aborts the whole call
with an error before any other post is touched. -/
theorem C5_amended_failure_policy :
    (∀ (db : Store) (ids : List String),
        (approveDraftsLoop db ids 0).2 =
          (ids.filter (fun i => okGetUpd db i)).length) ∧
      (∀ (db : Store) (ids : List String),
        (rejectDraftsLoop db ids 0).2 =
          (ids.filter (fun i => okUpdStatus db i)).length) ∧
      (∀ (db : Store) (ev : ReactionEvent) (ids : List String) (index : Nat)
          (pid : String), ids.get? index = some pid → GetByID db pid = none →
        approveSpecificDraft db ev ids index =
          (db, ReactionResult.failed ("failed to get post " ++ pid))) ∧
      (∀ (ids : List String) (db : Store) (i index : Nat) (j : String),
        okUpdStatus db j = true →
        (∃ k, ids.get? k = some j ∧ i + k ≠ index) →
        ∀ p ∈ (rejectOthers db ids i index).posts, p.id = j → p.status = "rejected") := by
  refine ⟨?_, ?_, ?_, ?_⟩
  · intro db ids
    rw [approveDraftsLoop_count ids db 0]
    omega
  · intro db ids
    rw [rejectDraftsLoop_count ids db 0]
    omega
  · intro db ev ids index pid hsel hget
    obtain ⟨hlt, hgeteq⟩ := List.get?_eq_some.mp hsel
    unfold approveSpecificDraft
    rw [dif_neg (by omega)]
    have hsel2 : ∀ (h : index < ids.length), ids.get ⟨index, h⟩ = pid :=
      fun _ => hgeteq
    simp only [hsel2, hget]
  · exact fun ids db i index j hok hex => rejectOthers_sets j ids db i index hok hex

/-- Witness for the amended C5 at concrete stores. -/
theorem C5_witness :
    (approveDraftsLoop failGetP1Store ["p1", "p2"] 0).2 =
        (["p1", "p2"].filter (fun i => okGetUpd failGetP1Store i)).length ∧
      (rejectDraftsLoop failGetP1Store ["p1", "p2"] 0).2 =
        (["p1", "p2"].filter (fun i => okUpdStatus failGetP1Store i)).length ∧
      approveSpecificDraft failGetP1Store oneEv ["p1", "p2"] 0 =
        (failGetP1Store, ReactionResult.failed ("failed to get post " ++ "p1")) ∧
      (∀ p ∈ (rejectOthers (noFailStore [draftPost "q2"]) ["q2"] 1 0).posts,
        p.id = "q2" → p.status = "rejected") :=
  ⟨C5_amended_failure_policy.1 failGetP1Store ["p1", "p2"],
   C5_amended_failure_policy.2.1 failGetP1Store ["p1", "p2"],
   C5_amended_failure_policy.2.2.1 failGetP1Store oneEv ["p1", "p2"] 0 "p1" rfl rfl,
   C5_amended_failure_policy.2.2.2 ["q2"] (noFailStore [draftPost "q2"]) 1 0 "q2"
     (by decide) ⟨0, rfl, by omega⟩⟩

/-!
## Claim C6
-/

/-- Claim C6: storing a batch under a message id and looking the id up returns
exactly that batch, in order; and a reaction on a message id never passed to
`StoreDraftMessage` (over any history of stores) is ignored without error and
without touching the store. -/
theorem C6_cache_roundtrip :
    (∀ (cache : DraftCache) (M : String) (ids : List String),
        StoreDraftMessage cache M ids M = some ids) ∧
      (∀ (ops : List (String × List String)) (db : Store) (ev : ReactionEvent),
        ev.itemTimestamp ∉ ops.map Prod.fst →
        HandleReaction (buildDraftCache ops) db ev = (db, ReactionResult.ignored)) := by
  constructor
  · intro cache M ids
    simp [StoreDraftMessage]
  · intro ops db ev h
    have hnone := buildDraftCache_not_mem h
    simp only [HandleReaction, hnone]

/-- Witness for C6 at a concrete cache history. -/
theorem C6_witness :
    StoreDraftMessage emptyDraftCache "m" ["p1", "p2", "p3"] "m" =
        some ["p1", "p2", "p3"] ∧
      HandleReaction (buildDraftCache [("other", ["x"])]) (noFailStore [draftPost "p1"])
          checkEv = ((noFailStore [draftPost "p1"]), ReactionResult.ignored) :=
  ⟨C6_cache_roundtrip.1 emptyDraftCache "m" ["p1", "p2", "p3"],
   C6_cache_roundtrip.2 [("other", ["x"])] (noFailStore [draftPost "p1"]) checkEv
     (by decide)⟩

/-!
## Claim C7
-/

/-- Claim C7: after `MarkSeen E`, `HasSeen E` is true; a second `MarkSeen E`
leaves the cache unchanged; and the `handleEvents` deduplication gate drops an
already-seen (non-empty) event id without running any handler and without
changing the cache. -/
theorem C7_idempotency :
    (∀ (seen : SeenSet) (E : String), HasSeen (MarkSeen seen E) E = true) ∧
      (∀ (seen : SeenSet) (E : String), MarkSeen (MarkSeen seen E) E = MarkSeen seen E) ∧
      (∀ (seen : SeenSet) (E : String), E ≠ "" → HasSeen seen E = true →
        dedupGate seen E = (seen, false)) := by
  refine ⟨?_, ?_, ?_⟩
  · intro seen E
    simp [HasSeen, MarkSeen]
  · intro seen E
    funext x
    by_cases h : x = E <;> simp [MarkSeen, h]
  · intro seen E hne hseen
    simp [dedupGate, hne, hseen]

/-- Witness for C7 at a concrete event id. -/
theorem C7_witness :
    HasSeen (MarkSeen emptySeen "Ev1") "Ev1" = true ∧
      MarkSeen (MarkSeen emptySeen "Ev1") "Ev1" = MarkSeen emptySeen "Ev1" ∧
      dedupGate (MarkSeen emptySeen "Ev1") "Ev1" = (MarkSeen emptySeen "Ev1", false) :=
  ⟨C7_idempotency.1 emptySeen "Ev1", C7_idempotency.2.1 emptySeen "Ev1",
   C7_idempotency.2.2 (MarkSeen emptySeen "Ev1") "Ev1" (by decide) (by decide)⟩

/-!
## Claim C8
-/

/-- Claim C8: the calendar (mark-for-scheduling) reaction handler is
equivalent to the approve-all handler — for every store state and batch it
produces exactly the same resulting store (hence the same post statuses) and
the same success count; only the confirmation text differs. -/
theorem C8_calendar_equals_approve_all (db : Store) (ev : ReactionEvent)
    (postIDs : List String) :
    (scheduleDrafts db ev postIDs).1 = (approveDrafts db ev postIDs).1 ∧
      (scheduleDraftsLoop db postIDs 0).2 = (approveDraftsLoop db postIDs 0).2 := by
  have h := scheduleDraftsLoop_eq_approveDraftsLoop postIDs db 0
  constructor
  · simp only [scheduleDrafts, approveDrafts, h]
  · rw [h]

/-!
## Claim C10
-/

/-- Claim C10: a numeral reaction selecting a zero-based index at or beyond
the tracked batch's length changes no post, returns no processing error, and
only sends the "Invalid variation number" reply; the guard makes the
subsequent batch indexing in-bounds for every input. -/
theorem C10_out_of_range (cache : DraftCache) (db : Store) (ev : ReactionEvent)
    (ids : List String) (index : Nat)
    (hc : cache ev.itemTimestamp = some ids)
    (hnum : (ev.reaction = "one" ∧ index = 0) ∨ (ev.reaction = "two" ∧ index = 1) ∨
      (ev.reaction = "three" ∧ index = 2))
    (hlen : ids.length ≤ index) :
    HandleReaction cache db ev =
      (db, ReactionResult.sent ev.itemChannel ("❌ Invalid variation number")) := by
  have hbody : approveSpecificDraft db ev ids index =
      (db, ReactionResult.sent ev.itemChannel ("❌ Invalid variation number")) := by
    unfold approveSpecificDraft
    rw [dif_pos hlen]
  rcases hnum with ⟨hr, rfl⟩ | ⟨hr, rfl⟩ | ⟨hr, rfl⟩ <;>
    (simp only [HandleReaction, hc, hr]
     rw [if_pos (Or.inl trivial)]
     exact hbody)

/-- Witness for C10: a numeral-2 reaction on a single-post batch. -/
theorem C10_witness :
    HandleReaction (StoreDraftMessage emptyDraftCache "m" ["p1"])
        (noFailStore [draftPost "p1"])
        { reaction := "two", itemTimestamp := "m", itemChannel := "C" } =
      ((noFailStore [draftPost "p1"]),
        ReactionResult.sent ("C") ("❌ Invalid variation number")) :=
  C10_out_of_range _ _ _ ["p1"] 1 rfl (Or.inr (Or.inl ⟨rfl, rfl⟩)) (by decide)
